import Mathlib

/-!
Verification development for the Pydantic-to-Swift schema tooling
(`scripts/pydantic_schema_parser.py`).

The Python source is embedded shallowly:
* Python `str` values are Lean `String`s (in this toolchain a `String` is a
  structure wrapping a `List Char`, which matches Python's sequence view);
  slicing, `split`, `strip`, `startswith`, `find`/`rfind` and substring
  membership are re-implemented character-exactly below.
* `PydanticTypeMapper.map_type` is mutually recursive through its generic
  arguments; it is embedded as a single step function `mapTypeStep`
  (literally the body of `map_type`, with the recursive occurrences
  abstracted) driven by fuel (`mapTypeF`).  `map_type` instantiates the
  fuel with a bound that provably suffices (`mapTypeF_eq_of_lt`), so
  `map_type` satisfies the intended recursion equation (`map_type_eq`)
  and is computable by `decide`.
* The fragments of the Python `ast` module the parser inspects
  (`ClassDef`, `AnnAssign`, `Assign`, `Expr`, `Name`, `Attribute`,
  `Constant`, `Call`, `keyword`) are modelled by `PyExpr` / `PyStmt` /
  `PyClassDef`; `ast.unparse` is modelled by carrying the unparsed text
  on each node.
* A source file is either a well-formed list of class definitions (the
  classes `ast.walk` would yield) together with the file's extracted
  imports, or a malformed file carrying the exception text; `_parse_file`
  and `parse_directory` become pure functions that also return the list
  of printed diagnostic messages.
-/

/-- Python `pre == s[:len(pre)]`, i.e. `s.startswith(pre)`. -/
def strHasPre (pre s : String) : Bool :=
  s.data.take pre.data.length == pre.data

/-- Python `s[n:]`. -/
def strDrop (s : String) (n : Nat) : String :=
  String.mk (s.data.drop n)

/-- Python `s[:-n]` (for `n ≥ 1`; clamps at the empty string). -/
def strDropRight (s : String) (n : Nat) : String :=
  String.mk (s.data.take (s.data.length - n))

/-- Python `pat in s`: `pat` occurs as a contiguous substring of `s`. -/
def strContainsSub (s pat : String) : Bool :=
  (List.range (s.data.length + 1)).any
    (fun i => (s.data.drop i).take pat.data.length == pat.data)

/-- Python `s.split(c)` for a one-character separator: every occurrence
splits, empty pieces are kept, and the empty string yields `[""]`. -/
def splitChar (c : Char) : List Char → List (List Char)
  | [] => [[]]
  | x :: xs =>
    if x = c then [] :: splitChar c xs
    else
      match splitChar c xs with
      | [] => [[x]]
      | h :: t => (x :: h) :: t

/-- Python `s.strip()`: drop whitespace from both ends. -/
def trimChars (l : List Char) : List Char :=
  ((l.dropWhile Char.isWhitespace).reverse.dropWhile Char.isWhitespace).reverse

/-- Python `s.split('.')[-1]`: the last dot-separated segment. -/
def lastSegment (s : String) : String :=
  String.mk ((splitChar '.' s.data).getLastD [])

/-- The static `PydanticTypeMapper.TYPE_MAPPING` table, in source order. -/
def TYPE_MAPPING : List (String × String) := [
  ("str", "String"),
  ("int", "Int"),
  ("float", "Double"),
  ("bool", "Bool"),
  ("bytes", "Data"),
  ("datetime.datetime", "Date"),
  ("datetime.date", "Date"),
  ("datetime.time", "Date"),
  ("pydantic.types.EmailStr", "String"),
  ("pydantic.HttpUrl", "String"),
  ("pydantic.AnyUrl", "String"),
  ("uuid.UUID", "String"),
  ("list", "Array"),
  ("dict", "Dictionary"),
  ("set", "Set")]

/-- The static `PydanticTypeMapper.SWIFT_IMPORTS` table. -/
def SWIFT_IMPORTS : List (String × String) := [
  ("Date", "Foundation"),
  ("Data", "Foundation"),
  ("UUID", "Foundation")]

/-- The `non_none_parts` list computed inside
`PydanticTypeMapper._extract_optional_type` for a `Union[...]` text: the
interior is split naively on every comma, each part stripped, and the
none-spellings dropped. -/
def unionNonNone (typeStr : String) : List String :=
  (((splitChar ',' (strDropRight (strDrop typeStr 6) 1).data).map
      (fun p => String.mk (trimChars p))).filter
    (fun p => p != "None" && p != "NoneType" && p != "type(None)"))

/-- `PydanticTypeMapper._extract_optional_type`: the inner type of
`Optional[T]`, or the unique non-none alternative of a `Union[...]`,
else `none`. -/
def extract_optional_type (typeStr : String) : Option String :=
  if strHasPre "Optional[" typeStr then
    some (strDropRight (strDrop typeStr 9) 1)
  else if strHasPre "Union[" typeStr then
    match unionNonNone typeStr with
    | [p] => some p
    | _ => none
  else none

/-- The body of `PydanticTypeMapper.map_type`, with the recursive
occurrences abstracted as `rec`.  Python's `generic_args` defaults to
`None` and is only ever tested for truthiness, so `None` and `[]` are
both modelled by `[]` (the recursive calls in the `List`/`Dict` branches
pass no `generic_args`, i.e. `[]`).  A falsy `inner_type` (Python `None`
or `""`) falls through to the later branches, as in the source. -/
def mapTypeStep (rec : String → List String → String × List String)
    (pythonType : String) (genericArgs : List String) : String × List String :=
  if (strHasPre "Optional[" pythonType || strHasPre "Union[" pythonType)
      && ((extract_optional_type pythonType).getD "" != "") then
    let inner := (extract_optional_type pythonType).getD ""
    let r := rec inner genericArgs
    (r.1 ++ "?", r.2)
  else if strHasPre "List[" pythonType || pythonType == "list" then
    match genericArgs with
    | a :: _ =>
      let r := rec a []
      ("[" ++ r.1 ++ "]", r.2)
    | [] => ("[Any]", [])
  else if strHasPre "Dict[" pythonType || pythonType == "dict" then
    match genericArgs with
    | a :: b :: _ =>
      let k := rec a []
      let v := rec b []
      ("[" ++ k.1 ++ ": " ++ v.1 ++ "]", k.2 ++ v.2)
    | _ => ("[String: Any]", [])
  else if strHasPre "Literal[" pythonType then
    ("String", [])
  else
    let swiftType := (List.lookup pythonType TYPE_MAPPING).getD pythonType
    let imports :=
      match List.lookup swiftType SWIFT_IMPORTS with
      | some imp => [imp]
      | none => []
    let swiftType2 :=
      if !((TYPE_MAPPING.map Prod.snd).contains swiftType)
          && swiftType != pythonType then
        swiftType
      else if swiftType == pythonType && strContainsSub pythonType "." then
        lastSegment pythonType
      else swiftType
    (swiftType2, imports)

/-- Fuel-driven unfolding of `map_type`; the fuel-0 sentinel is never
reached once the fuel exceeds `mtMeasure` (see `mapTypeF_eq_of_lt`). -/
def mapTypeF : Nat → String → List String → String × List String
  | 0, _, _ => ("", [])
  | fuel + 1, t, args => mapTypeStep (mapTypeF fuel) t args

/-- Termination measure for `map_type`: every recursive call strictly
decreases it. -/
def mtMeasure (t : String) (args : List String) : Nat :=
  t.data.length + (args.map (fun a => a.data.length)).sum

/-- `PydanticTypeMapper.map_type`. -/
def map_type (t : String) (args : List String) : String × List String :=
  mapTypeF (mtMeasure t args + 1) t args

example : map_type "str" [] = ("String", []) := by decide
example : map_type "Optional[str]" ["str"] = ("String?", []) := by decide
example : map_type "List[str]" ["str"] = ("[String]", []) := by decide
example : map_type "List[List[str]]" ["List[str]"] = ("[[Any]]", []) := by decide
example : map_type "Dict[str, List[int]]" ["str", "List[int]"] = ("[String: [Any]]", []) := by decide
example : map_type "Optional[Optional[str]]" ["Optional[str]"] = ("String??", []) := by decide
example : map_type "Union[Dict[str, int], None]" [] = ("Union[Dict[str, int], None]", []) := by decide
example : map_type "Union[List[int], None]" [] = ("[Any]?", []) := by decide
example : map_type "datetime.datetime" [] = ("Date", ["Foundation"]) := by decide
example : map_type "mymod.MyModel" [] = ("MyModel", []) := by decide
example : map_type "Literal['a', 'b']" [] = ("String", []) := by decide

/-- Fragment of the Python `ast` expression nodes the parser inspects.
`unparsed` / `text` components model `ast.unparse` on nodes whose inner
structure the parser never looks at. -/
inductive PyExpr where
  | name (id : String)
  | attr (text : String)
  | const (isStr : Bool) (value : String) (text : String)
  | call (func : PyExpr) (args : List PyExpr)
      (keywords : List (Option String × PyExpr)) (text : String)
  | otherExpr (text : String)

/-- `ast.unparse` on the modelled expressions. -/
def unparse : PyExpr → String
  | PyExpr.name id => id
  | PyExpr.attr t => t
  | PyExpr.const _ _ t => t
  | PyExpr.call _ _ _ t => t
  | PyExpr.otherExpr t => t

/-- Fragment of the Python `ast` statement nodes the parser inspects in a
class body. -/
inductive PyStmt where
  | annAssign (target : PyExpr) (annot : PyExpr) (value : Option PyExpr)
  | assign (targets : List PyExpr)
  | exprStmt (e : PyExpr)
  | otherStmt

/-- A Python `ast.ClassDef`. -/
structure PyClassDef where
  name : String
  bases : List PyExpr
  body : List PyStmt

/-- The `FieldMetadata` dataclass. -/
structure FieldMetadata where
  name : String
  python_type : String
  swift_type : String
  is_optional : Bool
  default_value : Option String
  description : Option String
  is_list : Bool
  is_dict : Bool
  generic_args : List String
deriving DecidableEq

/-- The `ModelMetadata` dataclass. -/
structure ModelMetadata where
  name : String
  base_classes : List String
  fields : List FieldMetadata
  is_enum : Bool
  enum_values : Option (List String)
  docstring : Option String
  imports : List String
deriving DecidableEq

/-- `PydanticSchemaParser._split_type_args`: split on commas at bracket
depth 0; split-points append the stripped piece (even when empty), the
trailing piece is appended only when its strip is non-empty.  The depth
counter is a Python `int` and may go negative. -/
def split_type_args (argsStr : String) : List String :=
  let st := argsStr.data.foldl
    (fun (acc : List String × List Char × Int) ch =>
      if ch = '[' then (acc.1, acc.2.1 ++ [ch], acc.2.2 + 1)
      else if ch = ']' then (acc.1, acc.2.1 ++ [ch], acc.2.2 - 1)
      else if ch = ',' ∧ acc.2.2 = 0 then
        (acc.1 ++ [String.mk (trimChars acc.2.1)], [], acc.2.2)
      else (acc.1, acc.2.1 ++ [ch], acc.2.2))
    ([], [], 0)
  if (trimChars st.2.1).isEmpty then st.1
  else st.1 ++ [String.mk (trimChars st.2.1)]

/-- `PydanticSchemaParser._extract_generic_args`: the interior between the
first `[` (Python `find`) and the last `]` (Python `rfind`), split by
`split_type_args`; empty when the brackets are absent or out of order. -/
def extract_generic_args (typeStr : String) : List String :=
  if strContainsSub typeStr "[" && strContainsSub typeStr "]" then
    let l := typeStr.data
    let start := l.findIdx (fun ch => ch = '[')
    let stop := l.length - 1 - (l.reverse.findIdx (fun ch => ch = ']'))
    if start < stop then
      split_type_args (String.mk ((l.drop (start + 1)).take (stop - (start + 1))))
    else []
  else []

/-- `PydanticSchemaParser._parse_field` on an `AnnAssign` whose target is
a `Name` (the only case in which it is called).  The Python function's
`Optional` return is always a real `FieldMetadata`, so it returns one
directly here.  The `imports` component of the `map_type` result is
discarded, exactly as in the source. -/
def parse_field (targetId : String) (annot : PyExpr)
    (value : Option PyExpr) : FieldMetadata :=
  let type_str := unparse annot
  let dvDesc : Option String × Option String :=
    match value with
    | none => (none, none)
    | some v =>
      match v with
      | PyExpr.call f args kws _ =>
        (match f with
         | PyExpr.name fid =>
           if fid = "Field" then
             let kwPass := kws.foldl
               (fun (acc : Option String × Option String) kw =>
                 if kw.1 = some "description" then
                   match kw.2 with
                   | PyExpr.const _ cv _ => (acc.1, some cv)
                   | _ => acc
                 else if kw.1 = some "default" then (some (unparse kw.2), acc.2)
                 else acc)
               (none, none)
             match args with
             | a :: _ => (some (unparse a), kwPass.2)
             | [] => (kwPass.1, kwPass.2)
           else (none, none)
         | _ => (none, none))
      | _ => (some (unparse v), none)
  { name := targetId
    python_type := type_str
    swift_type := (map_type type_str (extract_generic_args type_str)).1
    is_optional := strContainsSub type_str "Optional[" || strContainsSub type_str "Union["
    default_value := dvDesc.1
    description := dvDesc.2
    is_list := strContainsSub type_str "List[" || type_str == "list"
    is_dict := strContainsSub type_str "Dict[" || type_str == "dict"
    generic_args := extract_generic_args type_str }

/-- One iteration of the base-class loop in
`PydanticSchemaParser._parse_class`: accumulates `(base_classes,
is_pydantic_model, is_enum)`.  Bases that are neither `Name` nor
`Attribute` nodes are skipped; a bare `Name` base only ever sets the
pydantic flag, while an `Attribute` base sets the enum flag only when its
text contains `Enum` but not `BaseModel` (the `elif`). -/
def classBasesStep (acc : List String × Bool × Bool) (b : PyExpr) :
    List String × Bool × Bool :=
  match b with
  | PyExpr.name id =>
    (acc.1 ++ [id],
     acc.2.1 || (id == "BaseModel" || id == "StrictBaseModel"),
     acc.2.2)
  | PyExpr.attr t =>
    (acc.1 ++ [t],
     acc.2.1 || strContainsSub t "BaseModel",
     acc.2.2 || (!(strContainsSub t "BaseModel") && strContainsSub t "Enum"))
  | _ => acc

/-- The base-class loop of `_parse_class`. -/
def classBases (bases : List PyExpr) : List String × Bool × Bool :=
  bases.foldl classBasesStep ([], false, false)

/-- One iteration of the body loop in `_parse_class`: an annotated
assignment with a `Name` target contributes a field (regardless of
`is_enum`); a plain assignment contributes its `Name` targets to the enum
values only when `is_enum` is set. -/
def classBodyStep (isEnum : Bool) (acc : List FieldMetadata × List String)
    (st : PyStmt) : List FieldMetadata × List String :=
  match st with
  | PyStmt.annAssign target ann v =>
    (match target with
     | PyExpr.name tid => (acc.1 ++ [parse_field tid ann v], acc.2)
     | _ => acc)
  | PyStmt.assign targets =>
    if isEnum then
      (acc.1, acc.2 ++ targets.filterMap
        (fun t => match t with | PyExpr.name id => some id | _ => none))
    else acc
  | _ => acc

/-- The body loop of `_parse_class`: `(fields, enum_values)`. -/
def classBody (isEnum : Bool) (body : List PyStmt) :
    List FieldMetadata × List String :=
  body.foldl (classBodyStep isEnum) ([], [])

/-- `PydanticSchemaParser._parse_class`.  `fileImports` stands for
`_extract_imports(source_content)`. -/
def parse_class (c : PyClassDef) (fileImports : List String) : Option ModelMetadata :=
  let cls := classBases c.bases
  if !cls.2.1 && !cls.2.2 then none
  else
    let fe := classBody cls.2.2 c.body
    let docstring :=
      match c.body.head? with
      | some (PyStmt.exprStmt (PyExpr.const true s _)) => some s
      | _ => none
    some { name := c.name
           base_classes := cls.1
           fields := fe.1
           is_enum := cls.2.2
           enum_values := if cls.2.2 then some fe.2 else none
           docstring := docstring
           imports := fileImports }

/-- A source file as seen by `_parse_file`: either the class definitions
`ast.walk` yields (with the file's extracted imports), or a file whose
parse raises, carrying the exception text. -/
inductive PyFile where
  | wellFormed (name : String) (classes : List PyClassDef) (fileImports : List String)
  | malformed (name : String) (errMsg : String)

/-- Basename of the file. -/
def fileName : PyFile → String
  | PyFile.wellFormed n _ _ => n
  | PyFile.malformed n _ => n

/-- `PydanticSchemaParser._parse_file`: returns the models appended for
the file together with the printed diagnostics.  Every exception is
caught inside the function (`Error parsing ...`), so it never raises —
the caller's `Warning: Failed to parse ...` branch is unreachable. -/
def parse_file : PyFile → List ModelMetadata × List String
  | PyFile.wellFormed _ classes imps =>
    (classes.filterMap (fun c => parse_class c imps), [])
  | PyFile.malformed n e =>
    ([], ["Error parsing " ++ n ++ ": " ++ e])

/-- `PydanticSchemaParser.parse_directory` over the list of `.py` files
found by `rglob`: files whose basename starts with `__` are skipped,
every other file is handed to `_parse_file`, and models and diagnostics
accumulate in order. -/
def dirStep (acc : List ModelMetadata × List String) (f : PyFile) :
    List ModelMetadata × List String :=
  if strHasPre "__" (fileName f) then acc
  else (acc.1 ++ (parse_file f).1, acc.2 ++ (parse_file f).2)

/-- The loop of `parse_directory` over all files `rglob` found. -/
def parse_directory (files : List PyFile) : List ModelMetadata × List String :=
  files.foldl dirStep ([], [])
lemma strHasPre_iff {pre s : String} :
    strHasPre pre s = true ↔ s.data.take pre.data.length = pre.data := by
  simp [strHasPre]

lemma takeLen_le_len (n : Nat) (l : List Char) : (l.take n).length ≤ l.length := by
  rw [List.length_take]; exact inf_le_right

lemma takeLen_le_n (n : Nat) (l : List Char) : (l.take n).length ≤ n := by
  rw [List.length_take]; exact inf_le_left

lemma strHasPre_length {pre s : String} (h : strHasPre pre s = true) :
    pre.data.length ≤ s.data.length := by
  have h3 := takeLen_le_len pre.data.length s.data
  rw [strHasPre_iff.mp h] at h3
  exact h3

lemma strDropRight_length (s : String) (k : Nat) :
    (strDropRight s k).data.length ≤ s.data.length - k :=
  takeLen_le_n _ _

lemma strDrop_length (s : String) (n : Nat) :
    (strDrop s n).data.length = s.data.length - n :=
  List.length_drop _ _

lemma length_dropWhile_le' (p : Char → Bool) (l : List Char) :
    (l.dropWhile p).length ≤ l.length := by
  induction l with
  | nil => simp [List.dropWhile]
  | cons x xs ih =>
    by_cases hx : p x
    · simp [List.dropWhile, hx]; omega
    · simp [List.dropWhile, hx]

lemma trimChars_length_le (l : List Char) : (trimChars l).length ≤ l.length := by
  unfold trimChars
  have h1 := length_dropWhile_le' Char.isWhitespace l
  have h2 := length_dropWhile_le' Char.isWhitespace (l.dropWhile Char.isWhitespace).reverse
  simp only [List.length_reverse] at *
  omega

lemma splitChar_mem_length {c : Char} {l : List Char} {p : List Char}
    (h : p ∈ splitChar c l) : p.length ≤ l.length := by
  induction l generalizing p with
  | nil => simp [splitChar] at h; simp [h]
  | cons x xs ih =>
    by_cases hx : x = c
    · simp [splitChar, hx] at h
      rcases h with h | h
      · simp [h]
      · have := ih h; simp; omega
    · simp only [splitChar, if_neg hx] at h
      cases hsp : splitChar c xs with
      | nil => rw [hsp] at h; simp at h; simp [h]
      | cons hd tl =>
        rw [hsp] at h
        simp at h
        rcases h with h | h
        · have : hd ∈ splitChar c xs := by rw [hsp]; exact List.mem_cons_self ..
          have := ih this
          simp [h]; omega
        · have : p ∈ splitChar c xs := by rw [hsp]; exact List.mem_cons_of_mem _ h
          have := ih this
          simp; omega

lemma unionNonNone_mem_length {t : String} {p : String}
    (h : p ∈ unionNonNone t) : p.data.length ≤ t.data.length - 7 := by
  unfold unionNonNone at h
  have h2 := List.mem_of_mem_filter h
  obtain ⟨q, hq, hpq⟩ := List.mem_map.mp h2
  have hq1 : q.length ≤ (strDropRight (strDrop t 6) 1).data.length :=
    splitChar_mem_length hq
  have hplen : p.data.length ≤ q.length := by
    rw [← hpq]
    exact trimChars_length_le q
  have hil : (strDropRight (strDrop t 6) 1).data.length ≤ t.data.length - 7 := by
    have hb := strDropRight_length (strDrop t 6) 1
    rw [strDrop_length] at hb
    omega
  omega

lemma extract_optional_type_length {t r : String}
    (h : extract_optional_type t = some r) : r.data.length < t.data.length := by
  unfold extract_optional_type at h
  by_cases h1 : strHasPre "Optional[" t = true
  · have hlen : 9 ≤ t.data.length := by
      have := strHasPre_length h1
      simpa using this
    rw [if_pos h1] at h
    have hr : r = strDropRight (strDrop t 9) 1 := (Option.some_inj.mp h).symm
    have hb := strDropRight_length (strDrop t 9) 1
    rw [strDrop_length] at hb
    rw [hr]
    omega
  · rw [if_neg h1] at h
    by_cases h2 : strHasPre "Union[" t = true
    · have hlen : 6 ≤ t.data.length := by
        have := strHasPre_length h2
        simpa using this
      rw [if_pos h2] at h
      cases hcase : unionNonNone t with
      | nil => rw [hcase] at h; simp at h
      | cons p tl =>
        cases tl with
        | nil =>
          rw [hcase] at h
          have hpr : p = r := Option.some_inj.mp h
          have hp : p ∈ unionNonNone t := by
            rw [hcase]; exact List.mem_cons_self ..
          have := unionNonNone_mem_length hp
          rw [hpr] at this
          omega
        | cons p2 tl2 => rw [hcase] at h; simp at h
    · rw [if_neg h2] at h; simp at h

lemma mapTypeStep_congr (r1 r2 : String → List String → String × List String)
    (t : String) (args : List String)
    (h : ∀ t' a', mtMeasure t' a' < mtMeasure t args → r1 t' a' = r2 t' a') :
    mapTypeStep r1 t args = mapTypeStep r2 t args := by
  unfold mapTypeStep
  by_cases h1 : ((strHasPre "Optional[" t || strHasPre "Union[" t)
      && ((extract_optional_type t).getD "" != "")) = true
  · rw [if_pos h1, if_pos h1]
    have hsome : extract_optional_type t = some ((extract_optional_type t).getD "") := by
      cases hx : extract_optional_type t with
      | none => rw [hx] at h1; simp at h1
      | some v => simp
    have hlt : mtMeasure ((extract_optional_type t).getD "") args < mtMeasure t args := by
      have := extract_optional_type_length hsome
      unfold mtMeasure
      omega
    simp only [h _ _ hlt]
  · rw [if_neg h1, if_neg h1]
    by_cases h2 : (strHasPre "List[" t || t == "list") = true
    · rw [if_pos h2, if_pos h2]
      have htpos : 0 < t.data.length := by
        rcases Bool.or_eq_true_iff.mp h2 with hc | hc
        · have := strHasPre_length hc
          have h5 : ("List[" : String).data.length = 5 := by decide
          omega
        · have ht : t = "list" := by simpa using hc
          rw [ht]; decide
      cases args with
      | nil => rfl
      | cons a rest =>
        have hlt : mtMeasure a [] < mtMeasure t (a :: rest) := by
          unfold mtMeasure
          simp only [List.map_nil, List.sum_nil, List.map_cons, List.sum_cons]
          omega
        simp only [h _ _ hlt]
    · rw [if_neg h2, if_neg h2]
      by_cases h3 : (strHasPre "Dict[" t || t == "dict") = true
      · rw [if_pos h3, if_pos h3]
        have htpos : 0 < t.data.length := by
          rcases Bool.or_eq_true_iff.mp h3 with hc | hc
          · have := strHasPre_length hc
            have h5 : ("Dict[" : String).data.length = 5 := by decide
            omega
          · have ht : t = "dict" := by simpa using hc
            rw [ht]; decide
        cases args with
        | nil => rfl
        | cons a rest =>
          cases rest with
          | nil => rfl
          | cons b rest2 =>
            have hlta : mtMeasure a [] < mtMeasure t (a :: b :: rest2) := by
              unfold mtMeasure
              simp only [List.map_nil, List.sum_nil, List.map_cons, List.sum_cons]
              omega
            have hltb : mtMeasure b [] < mtMeasure t (a :: b :: rest2) := by
              unfold mtMeasure
              simp only [List.map_nil, List.sum_nil, List.map_cons, List.sum_cons]
              omega
            simp only [h _ _ hlta, h _ _ hltb]
      · rw [if_neg h3, if_neg h3]

lemma mapTypeF_eq_of_lt :
    ∀ f t args, mtMeasure t args < f →
      mapTypeF f t args = mapTypeF (mtMeasure t args + 1) t args := by
  intro f
  induction f using Nat.strong_induction_on with
  | _ f ih =>
    intro t args hm
    cases f with
    | zero => omega
    | succ f' =>
      show mapTypeStep (mapTypeF f') t args
          = mapTypeStep (mapTypeF (mtMeasure t args)) t args
      apply mapTypeStep_congr
      intro t' a' hlt
      have e1 : mapTypeF f' t' a' = mapTypeF (mtMeasure t' a' + 1) t' a' :=
        ih f' (by omega) t' a' (by omega)
      have e2 : mapTypeF (mtMeasure t args) t' a' = mapTypeF (mtMeasure t' a' + 1) t' a' :=
        ih (mtMeasure t args) (by omega) t' a' (by omega)
      rw [e1, e2]

/-- The recursion equation `map_type` satisfies: it is the literal body of
the Python function with `map_type` itself in the recursive positions.
This is the totality/termination statement for the embedding: the fuel
bound `mtMeasure + 1` always suffices. -/
theorem map_type_eq (t : String) (args : List String) :
    map_type t args = mapTypeStep map_type t args := by
  show mapTypeF (mtMeasure t args + 1) t args = _
  show mapTypeStep (mapTypeF (mtMeasure t args)) t args = _
  apply mapTypeStep_congr
  intro t' a' hlt
  show _ = mapTypeF (mtMeasure t' a' + 1) t' a'
  exact mapTypeF_eq_of_lt _ _ _ (by omega)

lemma strAppend_assoc (a b c : String) : a ++ b ++ c = a ++ (b ++ c) := by
  apply String.ext
  simp [String.data_append, List.append_assoc]

lemma strHasPre_append (p r : String) : strHasPre p (p ++ r) = true := by
  rw [strHasPre_iff, String.data_append, List.take_left]

lemma extract_optional_type_optional (T : String) :
    extract_optional_type ("Optional[" ++ (T ++ "]")) = some T := by
  have hpre : strHasPre "Optional[" ("Optional[" ++ (T ++ "]")) = true :=
    strHasPre_append _ _
  unfold extract_optional_type
  rw [if_pos hpre]
  congr 1
  apply String.ext
  show ((("Optional[" ++ (T ++ "]")).data.drop 9).take
      ((("Optional[" ++ (T ++ "]")).data.drop 9).length - 1)) = T.data
  have h9 : (9 : Nat) = ("Optional[" : String).data.length := rfl
  rw [String.data_append, String.data_append, h9, List.drop_left]
  have hrb : ("]" : String).data = [']'] := rfl
  rw [hrb]
  have hlen : (T.data ++ [']']).length - 1 = T.data.length := by
    simp
  rw [hlen]
  exact List.take_left _ _

lemma not_strHasPre_optional_union (rest : String) :
    strHasPre "Optional[" ("Union[" ++ rest) = false := by
  rw [Bool.eq_false_iff]
  intro hc
  have htake := strHasPre_iff.mp hc
  have h9 : ("Optional[" : String).data.length = 9 := rfl
  have hU : ("Union[" : String).data = ['U','n','i','o','n','['] := rfl
  have hO : ("Optional[" : String).data = ['O','p','t','i','o','n','a','l','['] := rfl
  rw [String.data_append, h9, hU, hO] at htake
  simp [List.take_succ_cons] at htake

lemma extract_optional_type_union_none (T : String)
    (hc : T.data.contains ',' = false) (htr : trimChars T.data = T.data)
    (hn1 : T ≠ "None") (hn2 : T ≠ "NoneType") (hn3 : T ≠ "type(None)") :
    extract_optional_type ("Union[" ++ (T ++ ", None]")) = some T := by
  have hpre : strHasPre "Union[" ("Union[" ++ (T ++ ", None]")) = true :=
    strHasPre_append _ _
  unfold extract_optional_type
  rw [not_strHasPre_optional_union, if_neg (by simp), if_pos hpre]
  have hinner : (strDropRight (strDrop ("Union[" ++ (T ++ ", None]")) 6) 1).data
      = T.data ++ (", None" : String).data := by
    show ((("Union[" ++ (T ++ ", None]")).data.drop 6).take
        ((("Union[" ++ (T ++ ", None]")).data.drop 6).length - 1)) = _
    have h6 : (6 : Nat) = ("Union[" : String).data.length := rfl
    rw [String.data_append, String.data_append, h6, List.drop_left]
    have hsplit : (", None]" : String).data = (", None" : String).data ++ [']'] := rfl
    rw [hsplit, ← List.append_assoc]
    have hlen : ((T.data ++ (", None" : String).data) ++ [']']).length - 1
        = (T.data ++ (", None" : String).data).length := by simp
    rw [hlen]
    exact List.take_left _ _
  have hc2 : ',' ∉ T.data := by simpa using hc
  have hsc : splitChar ',' (T.data ++ (", None" : String).data)
      = [T.data, (" None" : String).data] := by
    have hcm : (", None" : String).data = ',' :: (" None" : String).data := rfl
    rw [hcm]
    have key : ∀ xs : List Char, ',' ∉ xs →
        splitChar ',' (xs ++ ',' :: (" None" : String).data)
        = (xs ++ []) :: [(" None" : String).data] := by
      intro xs
      induction xs with
      | nil =>
        intro _
        show splitChar ',' (',' :: (" None" : String).data) = _
        rw [splitChar, if_pos rfl]
        decide
      | cons x xs2 ih =>
        intro hx
        have hxc : ¬ x = ',' := by
          intro hcon
          exact hx (by rw [hcon]; exact List.mem_cons_self ..)
        have hx2 : ',' ∉ xs2 := fun hm => hx (List.mem_cons_of_mem _ hm)
        show splitChar ',' (x :: (xs2 ++ ',' :: (" None" : String).data)) = _
        rw [splitChar, if_neg hxc, ih hx2]
        simp
    have hres := key T.data hc2
    simpa using hres
  have hun : unionNonNone ("Union[" ++ (T ++ ", None]")) = [T] := by
    unfold unionNonNone
    rw [hinner, hsc]
    have htN : trimChars (" None" : String).data = ("None" : String).data := by decide
    simp only [List.map_cons, List.map_nil, htr, htN]
    have hTmk : String.mk T.data = T := rfl
    have hNmk : String.mk ("None" : String).data = "None" := rfl
    rw [hTmk, hNmk]
    have hTf : (T != "None" && T != "NoneType" && T != "type(None)") = true := by
      simp [bne_iff_ne, hn1, hn2, hn3]
    simp only [List.filter_cons, List.filter_nil, hTf, if_true]
    simp
  rw [hun]

/-- `map_type` on a syntactic `Optional[T]` (with `T` non-empty) is the
recursive mapping of `T` with one `?` appended and its imports unchanged. -/
theorem mapType_optional (T : String) (args : List String) (hT : T ≠ "") :
    map_type ("Optional[" ++ T ++ "]") args
      = ((map_type T args).1 ++ "?", (map_type T args).2) := by
  rw [strAppend_assoc, map_type_eq]
  unfold mapTypeStep
  have hext := extract_optional_type_optional T
  have hcond : ((strHasPre "Optional[" ("Optional[" ++ (T ++ "]"))
      || strHasPre "Union[" ("Optional[" ++ (T ++ "]")))
      && ((extract_optional_type ("Optional[" ++ (T ++ "]"))).getD "" != "")) = true := by
    rw [hext, strHasPre_append]
    simp [bne_iff_ne, hT]
  rw [if_pos hcond, hext]
  simp

/-- `map_type` on a syntactic `Union[T, None]` whose `T` is non-empty,
comma-free, whitespace-trimmed and not itself a none-spelling is the
recursive mapping of `T` with one `?` appended and its imports unchanged. -/
theorem mapType_union_none (T : String) (args : List String) (hT : T ≠ "")
    (hc : T.data.contains ',' = false) (htr : trimChars T.data = T.data)
    (hn1 : T ≠ "None") (hn2 : T ≠ "NoneType") (hn3 : T ≠ "type(None)") :
    map_type ("Union[" ++ T ++ ", None]") args
      = ((map_type T args).1 ++ "?", (map_type T args).2) := by
  rw [strAppend_assoc, map_type_eq]
  unfold mapTypeStep
  have hext := extract_optional_type_union_none T hc htr hn1 hn2 hn3
  have hcond : ((strHasPre "Optional[" ("Union[" ++ (T ++ ", None]"))
      || strHasPre "Union[" ("Union[" ++ (T ++ ", None]")))
      && ((extract_optional_type ("Union[" ++ (T ++ ", None]"))).getD "" != "")) = true := by
    rw [hext]
    simp [strHasPre_append, bne_iff_ne, hT]
  rw [if_pos hcond, hext]
  simp

/-- C1 counterexample: the nesting is NOT preserved.  `map_type` on
`List[List[str]]` with generic argument `List[str]` does not return
`[[String]]`, and on `Dict[str, List[int]]` it does not return
`[String: [Int]]` (the recursive calls pass no generic arguments, so the
inner container element degrades to the wildcard). -/
theorem C1_counterexample :
    (map_type "List[List[str]]" ["List[str]"]).1 ≠ "[[String]]" ∧
    (map_type "Dict[str, List[int]]" ["str", "List[int]"]).1 ≠ "[String: [Int]]" := by
  decide

/-- C1 amended: `List[List[str]]` with generic args `['List[str]']` maps
to `[[Any]]`, and `Dict[str, List[int]]` with generic args
`['str', 'List[int]']` maps to `[String: [Any]]` — one container level is
preserved and the nested element type degrades to the wildcard `Any`,
because the recursive call receives no generic arguments. -/
theorem C1_nested_containers_degrade :
    map_type "List[List[str]]" ["List[str]"] = ("[[Any]]", []) ∧
    map_type "Dict[str, List[int]]" ["str", "List[int]"] = ("[String: [Any]]", []) := by
  decide

/-- C2 counterexample: `map_type('Optional[Optional[str]]')` (with the
generic args the parser would supply, and also with none) yields
`String??` — a doubled optionality marker, not the single one the claim
asserts. -/
theorem C2_counterexample :
    (map_type "Optional[Optional[str]]" ["Optional[str]"]).1 = "String??" ∧
    (map_type "Optional[Optional[str]]" []).1 = "String??" ∧
    ("String??" : String) ≠ "String?" := by
  decide

/-- C2 amended: for every non-empty type text `T`, mapping
`'Optional[' + T + ']'` appends exactly one optionality marker to the
mapping of `T` and keeps its imports; when `T` is itself optional the
markers therefore accumulate, so `Optional[Optional[str]]` maps to the
doubled `String??`, never the single `String?`. -/
theorem C2_optional_appends_one_marker (T : String) (args : List String)
    (hT : T ≠ "") :
    map_type ("Optional[" ++ T ++ "]") args
      = ((map_type T args).1 ++ "?", (map_type T args).2) :=
  mapType_optional T args hT

/-- C2 witness: the amended statement at `T = "str"`. -/
theorem C2_witness :
    map_type ("Optional[" ++ "str" ++ "]") []
      = ((map_type "str" []).1 ++ "?", (map_type "str" []).2) :=
  C2_optional_appends_one_marker "str" [] (by decide)

/-- C3 counterexample: for the bracketed `T = 'Dict[str, int]'` (which
contains a comma) the union `Union[Dict[str, int], None]` is NOT mapped
to the recursive mapping of `T` plus a marker: the naive comma split sees
two non-none alternatives, so the text falls through unchanged, while the
recursive mapping of `T` with a marker would be `[String: Any]?`. -/
theorem C3_counterexample :
    map_type "Union[Dict[str, int], None]" []
      = ("Union[Dict[str, int], None]", []) ∧
    (map_type "Dict[str, int]" []).1 ++ "?" = "[String: Any]?" ∧
    ("Union[Dict[str, int], None]" : String) ≠ "[String: Any]?" := by
  decide

/-- C3 amended: for every type text `T` that is non-empty, contains no
comma, is whitespace-trimmed, and is not itself a none-spelling, mapping
`'Union[' + T + ', None]'` returns the recursive mapping of `T` with a
single optionality marker appended and the recursive call's imports
unchanged.  (A comma inside `T` — e.g. a bracketed `Dict[str, int]` —
defeats the naive comma split and the union falls through unmapped.) -/
theorem C3_union_none_single_marker (T : String) (args : List String)
    (hT : T ≠ "") (hc : T.data.contains ',' = false)
    (htr : trimChars T.data = T.data)
    (hn1 : T ≠ "None") (hn2 : T ≠ "NoneType") (hn3 : T ≠ "type(None)") :
    map_type ("Union[" ++ T ++ ", None]") args
      = ((map_type T args).1 ++ "?", (map_type T args).2) :=
  mapType_union_none T args hT hc htr hn1 hn2 hn3

/-- C3 witness: the amended statement at the bracketed, comma-free
`T = "List[int]"`. -/
theorem C3_witness :
    map_type ("Union[" ++ "List[int]" ++ ", None]") []
      = ((map_type "List[int]" []).1 ++ "?", (map_type "List[int]" []).2) :=
  C3_union_none_single_marker "List[int]" [] (by decide) (by decide)
    (by decide) (by decide) (by decide) (by decide)

/-- C4: evaluating the parser at the repo's own `test_enum_parsing`
fixture, `class StatusEnum(str, Enum)` — both bases are bare `Name`
nodes — yields NO model at all: the `Name` branch of `_parse_class`
never checks for `Enum`, so the class is dropped, contradicting the
claim (and the repository's test, which expects an enum model with
values `ACTIVE`, `INACTIVE`, `PENDING`). -/
theorem C4_bare_enum_base_dropped :
    parse_class
      { name := "StatusEnum"
        bases := [PyExpr.name "str", PyExpr.name "Enum"]
        body := [PyStmt.assign [PyExpr.name "ACTIVE"],
                 PyStmt.assign [PyExpr.name "INACTIVE"],
                 PyStmt.assign [PyExpr.name "PENDING"]] }
      [] = none := by
  decide

/-- C9: `map_type` is total and deterministic.  First conjunct: the
recursion terminates — any fuel above the measure computes the same
result as `map_type`, i.e. the recursion depth is bounded by
`mtMeasure + 1` for every input string and argument list (on any input,
a result pair is returned; determinism is immediate since the embedding
is a pure function).  Second conjunct: for every primitive spelling in
the static `TYPE_MAPPING` table, the returned target spelling is
non-empty. -/
theorem C9_map_type_total_deterministic :
    (∀ t args f, mtMeasure t args < f → mapTypeF f t args = map_type t args) ∧
    (∀ p ∈ TYPE_MAPPING, (map_type p.1 []).1 ≠ "") := by
  constructor
  · intro t args f h
    exact mapTypeF_eq_of_lt f t args h
  · decide

/-- C9 witness: the totality bound at `"str"` with fuel 10, and the
non-empty mapping of the table entry for `"str"`. -/
theorem C9_witness :
    mapTypeF 10 "str" [] = map_type "str" [] ∧ (map_type "str" []).1 ≠ "" :=
  ⟨C9_map_type_total_deterministic.1 "str" [] 10 (by decide),
   C9_map_type_total_deterministic.2 ("str", "String") (by decide)⟩

/-- C5 counterexample: for `count: int = Field(5, default=3)` — a Field
call with both a positional argument and a `default` keyword — the
parser records `default_value = '5'` (the positional), not `'3'` (the
keyword) as the claim asserts. -/
theorem C5_counterexample :
    (parse_field "count" (PyExpr.name "int")
      (some (PyExpr.call (PyExpr.name "Field")
        [PyExpr.const false "5" "5"]
        [(some "default", PyExpr.const false "3" "3")]
        "Field(5, default=3)"))).default_value = some "5" ∧
    (some "5" : Option String) ≠ some "3" := by
  decide

/-- C5 amended: whenever the Field call has at least one positional
argument, `default_value` is the first positional argument's text —
unconditionally, overwriting any `default` keyword; the `default`
keyword is used only when there are no positional arguments. -/
theorem C5_positional_overrides_default_keyword :
    (∀ n ann a rest kws txt,
      (parse_field n ann (some (PyExpr.call (PyExpr.name "Field")
        (a :: rest) kws txt))).default_value = some (unparse a)) ∧
    (∀ n ann e txt,
      (parse_field n ann (some (PyExpr.call (PyExpr.name "Field")
        [] [(some "default", e)] txt))).default_value = some (unparse e)) := by
  constructor
  · intro n ann a rest kws txt
    simp [parse_field]
  · intro n ann e txt
    simp [parse_field]

lemma dir_go (files : List PyFile) :
    ∀ acc, files.foldl dirStep acc
      = (acc.1 ++ (parse_directory files).1, acc.2 ++ (parse_directory files).2) := by
  induction files with
  | nil => intro acc; simp [parse_directory]
  | cons f fs ih =>
    intro acc
    have hr : parse_directory (f :: fs)
        = ((dirStep ([], []) f).1 ++ (parse_directory fs).1,
           (dirStep ([], []) f).2 ++ (parse_directory fs).2) := by
      show List.foldl dirStep ([], []) (f :: fs) = _
      rw [List.foldl_cons, ih (dirStep ([], []) f)]
    rw [List.foldl_cons, ih (dirStep acc f), hr]
    unfold dirStep
    by_cases hb : strHasPre "__" (fileName f) = true
    · simp [hb]
    · simp [hb]

lemma parse_directory_cons (f : PyFile) (fs : List PyFile) :
    parse_directory (f :: fs)
      = ((dirStep ([], []) f).1 ++ (parse_directory fs).1,
         (dirStep ([], []) f).2 ++ (parse_directory fs).2) := by
  show List.foldl dirStep ([], []) (f :: fs) = _
  rw [List.foldl_cons, dir_go fs (dirStep ([], []) f)]

/-- C6 counterexample: a directory consisting of the single `.py` file
`__init__.py`, which contains a perfectly parseable model class, yields
no models and no diagnostics — the file is silently excluded, so the
parser does NOT visit every `.py` file. -/
theorem C6_counterexample :
    parse_directory [PyFile.wellFormed "__init__.py"
      [{ name := "M", bases := [PyExpr.name "BaseModel"], body := [] }] []]
      = ([], []) ∧
    (parse_file (PyFile.wellFormed "__init__.py"
      [{ name := "M", bases := [PyExpr.name "BaseModel"], body := [] }] [])).1
      ≠ [] := by
  decide

/-- C6 amended: the parser attempts to parse every `.py` file of the
directory tree EXCEPT those whose basename starts with `__` (e.g.
`__init__.py`), which are silently skipped; every model parsed from a
non-skipped file appears in the batch. -/
theorem C6_visits_non_dunder_files (files : List PyFile) (f : PyFile)
    (m : ModelMetadata) (hf : f ∈ files)
    (hsk : strHasPre "__" (fileName f) = false)
    (hm : m ∈ (parse_file f).1) : m ∈ (parse_directory files).1 := by
  induction files with
  | nil => simp at hf
  | cons g fs ih =>
    rcases List.mem_cons.mp hf with rfl | hf2
    · rw [parse_directory_cons]
      apply List.mem_append_left
      unfold dirStep
      rw [if_neg (by simp [hsk])]
      simpa using hm
    · rw [parse_directory_cons]
      exact List.mem_append_right _ (ih hf2)

/-- C6 witness: the amended statement at a one-file directory whose file
`a.py` contains one model class. -/
theorem C6_witness :
    { name := "M", base_classes := ["BaseModel"], fields := [],
      is_enum := false, enum_values := none, docstring := none,
      imports := [] : ModelMetadata }
      ∈ (parse_directory [PyFile.wellFormed "a.py"
          [{ name := "M", bases := [PyExpr.name "BaseModel"], body := [] }] []]).1 :=
  C6_visits_non_dunder_files
    [PyFile.wellFormed "a.py"
      [{ name := "M", bases := [PyExpr.name "BaseModel"], body := [] }] []]
    (PyFile.wellFormed "a.py"
      [{ name := "M", bases := [PyExpr.name "BaseModel"], body := [] }] [])
    { name := "M", base_classes := ["BaseModel"], fields := [],
      is_enum := false, enum_values := none, docstring := none, imports := [] }
    (List.mem_singleton.mpr rfl) (by decide) (by decide)

/-- C7 counterexample: the enum class `class E(enum.Enum): x: int = 1`
parses to a model with `is_enum = true` carrying ONE field — the body
loop collects annotated assignments regardless of `is_enum`, so an
enum model can carry a non-empty fields list, refuting the claimed
biconditional. -/
theorem C7_counterexample :
    ((parse_class
      { name := "E"
        bases := [PyExpr.attr "enum.Enum"]
        body := [PyStmt.annAssign (PyExpr.name "x") (PyExpr.name "int")
                  (some (PyExpr.const false "1" "1"))] }
      []).map (fun m => (m.is_enum, m.fields.length))) = some (true, 1) ∧
    (1 : Nat) ≠ 0 := by
  decide

/-- C7 amended: for every model the parser produces, `enum_values` is
`none` exactly when `is_enum` is false (it is `some` — possibly the
empty list — exactly when `is_enum` is true); the `fields` half of the
claimed invariant does not hold, since annotated assignments contribute
fields regardless of `is_enum`. -/
theorem C7_enum_values_iff (c : PyClassDef) (imps : List String)
    (m : ModelMetadata) (h : parse_class c imps = some m) :
    m.enum_values = none ↔ m.is_enum = false := by
  simp only [parse_class] at h
  by_cases hb : (!(classBases c.bases).2.1 && !(classBases c.bases).2.2) = true
  · rw [if_pos hb] at h
    exact absurd h (by simp)
  · rw [if_neg hb] at h
    have hm := Option.some_inj.mp h
    subst hm
    cases he : (classBases c.bases).2.2 <;> simp [he]

/-- C7 witness: the amended statement at a fieldless record model. -/
theorem C7_witness :
    (({ name := "M", base_classes := ["BaseModel"], fields := [],
        is_enum := false, enum_values := none, docstring := none,
        imports := [] } : ModelMetadata).enum_values = none
    ↔ ({ name := "M", base_classes := ["BaseModel"], fields := [],
         is_enum := false, enum_values := none, docstring := none,
         imports := [] } : ModelMetadata).is_enum = false) :=
  C7_enum_values_iff
    { name := "M", bases := [PyExpr.name "BaseModel"], body := [] } []
    { name := "M", base_classes := ["BaseModel"], fields := [],
      is_enum := false, enum_values := none, docstring := none, imports := [] }
    (by decide)

/-- C8: per-file fault isolation.  A directory batch of one malformed
file and two well-formed files (none `__`-prefixed) yields exactly the
models of the two well-formed files, in order, and exactly one logged
message — the one naming the malformed file. -/
theorem C8_fault_isolation (bn em n1 n2 : String)
    (c1 c2 : List PyClassDef) (i1 i2 : List String)
    (h1 : strHasPre "__" bn = false) (h2 : strHasPre "__" n1 = false)
    (h3 : strHasPre "__" n2 = false) :
    parse_directory [PyFile.malformed bn em,
      PyFile.wellFormed n1 c1 i1, PyFile.wellFormed n2 c2 i2]
      = ((parse_file (PyFile.wellFormed n1 c1 i1)).1
          ++ (parse_file (PyFile.wellFormed n2 c2 i2)).1,
         ["Error parsing " ++ bn ++ ": " ++ em]) := by
  unfold parse_directory
  simp [dirStep, fileName, parse_file, h1, h2, h3]

/-- C8 witness: the isolation statement at a concrete three-file batch
(`bad.py` malformed, `a.py` with one model class, `b.py` empty). -/
theorem C8_witness :
    parse_directory [PyFile.malformed "bad.py" "invalid syntax",
      PyFile.wellFormed "a.py"
        [{ name := "M", bases := [PyExpr.name "BaseModel"], body := [] }] [],
      PyFile.wellFormed "b.py" [] []]
      = ((parse_file (PyFile.wellFormed "a.py"
            [{ name := "M", bases := [PyExpr.name "BaseModel"], body := [] }] [])).1
          ++ (parse_file (PyFile.wellFormed "b.py" [] [])).1,
         ["Error parsing " ++ "bad.py" ++ ": " ++ "invalid syntax"]) :=
  C8_fault_isolation "bad.py" "invalid syntax" "a.py" "b.py"
    [{ name := "M", bases := [PyExpr.name "BaseModel"], body := [] }] [] [] []
    (by decide) (by decide) (by decide)

lemma classBody_go_mem (isEnum : Bool) (body : List PyStmt) :
    ∀ (acc : List FieldMetadata × List String) (g : FieldMetadata),
      g ∈ (body.foldl (classBodyStep isEnum) acc).1 →
      g ∈ acc.1 ∨ ∃ tid ann v, g = parse_field tid ann v := by
  induction body with
  | nil =>
    intro acc g hg
    exact Or.inl hg
  | cons st rest ih =>
    intro acc g hg
    rw [List.foldl_cons] at hg
    rcases ih (classBodyStep isEnum acc st) g hg with hin | hex
    · cases st with
      | annAssign target ann v =>
        cases target with
        | name tid =>
          simp [classBodyStep] at hin
          rcases hin with hin | hin
          · exact Or.inl hin
          · exact Or.inr ⟨tid, ann, v, hin⟩
        | attr s => exact Or.inl hin
        | const b vl tx => exact Or.inl hin
        | call f a k tx => exact Or.inl hin
        | otherExpr tx => exact Or.inl hin
      | assign targets =>
        cases he : isEnum with
        | false => rw [he] at hin; simp [classBodyStep] at hin; exact Or.inl hin
        | true => rw [he] at hin; simp [classBodyStep] at hin; exact Or.inl hin
      | exprStmt e => exact Or.inl hin
      | otherStmt => exact Or.inl hin
    · exact Or.inr hex

/-- C10: internal consistency of every emitted `FieldMetadata`.  For any
field record of any model the parser produces, `generic_args` is exactly
`_extract_generic_args` of its `python_type`, and `swift_type` is exactly
the first component of `map_type` applied to that `python_type` and those
`generic_args` — so both are functions of the source type text alone. -/
theorem C10_field_metadata_consistent (c : PyClassDef) (imps : List String)
    (m : ModelMetadata) (fm : FieldMetadata)
    (h : parse_class c imps = some m) (hmem : fm ∈ m.fields) :
    fm.generic_args = extract_generic_args fm.python_type ∧
    fm.swift_type = (map_type fm.python_type fm.generic_args).1 := by
  have hf : m.fields = (classBody (classBases c.bases).2.2 c.body).1 := by
    simp only [parse_class] at h
    by_cases hb : (!(classBases c.bases).2.1 && !(classBases c.bases).2.2) = true
    · rw [if_pos hb] at h
      exact absurd h (by simp)
    · rw [if_neg hb] at h
      have hm := Option.some_inj.mp h
      subst hm
      rfl
  rw [hf] at hmem
  rcases classBody_go_mem (classBases c.bases).2.2 c.body ([], []) fm hmem with
    hin | ⟨tid, ann, v, rfl⟩
  · exact absurd hin (by simp)
  · exact ⟨rfl, rfl⟩

/-- C10 witness: the consistency statement at the model parsed from
`class M(BaseModel): x: int` and its single field. -/
theorem C10_witness :
    (FieldMetadata.mk "x" "int" "Int" false none none false false
      []).generic_args
      = extract_generic_args (FieldMetadata.mk "x" "int" "Int" false none
          none false false []).python_type ∧
    (FieldMetadata.mk "x" "int" "Int" false none none false false
      []).swift_type
      = (map_type
          (FieldMetadata.mk "x" "int" "Int" false none none false false
            []).python_type
          (FieldMetadata.mk "x" "int" "Int" false none none false false
            []).generic_args).1 :=
  C10_field_metadata_consistent
    (PyClassDef.mk "M" [PyExpr.name "BaseModel"]
      [PyStmt.annAssign (PyExpr.name "x") (PyExpr.name "int") none])
    []
    (ModelMetadata.mk "M" ["BaseModel"]
      [FieldMetadata.mk "x" "int" "Int" false none none false false []]
      false none none [])
    (FieldMetadata.mk "x" "int" "Int" false none none false false [])
    (by decide) (by decide)
